import Mathlib

namespace Tutorial

/-! ### Definitions: the embedded program and its models -/

/-- Symbols and product ids are plain strings (`Symbol = str` in the
datamodel). -/
abbrev Symbol := String

/-- Modelled from the spec: the `Order` record of the external
`datamodel` module — symbol, price, signed quantity (positive = buy,
negative = sell). -/
structure Order where
  symbol : Symbol
  price : Int
  quantity : Int
deriving DecidableEq

/-- Modelled from the spec: the `OrderDepth` record — buy-side and
sell-side price→quantity mappings (sell quantities encoded negative).
Python dicts become insertion-ordered association lists. -/
structure OrderDepth where
  buy_orders : List (Int × Int)
  sell_orders : List (Int × Int)
deriving DecidableEq

/-- Modelled from the spec: the `Trade` record. -/
structure Trade where
  symbol : Symbol
  price : Int
  quantity : Int
  buyer : String
  seller : String
  timestamp : Int
deriving DecidableEq

/-- Modelled from the spec: the `Listing` record,
`[symbol, product, denomination]`. -/
structure Listing where
  symbol : Symbol
  product : String
  denomination : String
deriving DecidableEq

/-- Modelled from the spec: the structured conversion-observation
record (bid/ask price, transport fee, tariffs, two reference
values).  Prices are integers or fixed-point per the spec, so `Int`. -/
structure ConversionObservation where
  bidPrice : Int
  askPrice : Int
  transportFees : Int
  exportTariff : Int
  importTariff : Int
  sugarPrice : Int
  sunlightIndex : Int
deriving DecidableEq

/-- Modelled from the spec: the `Observation` record — plain numeric
values plus per-product conversion observations. -/
structure Observation where
  plainValueObservations : List (String × Int)
  conversionObservations : List (String × ConversionObservation)
deriving DecidableEq

/-- Modelled from the spec: one `Tick` (`TradingState`) — timestamp,
opaque trader-state string, listings, order books, positions, own and
market trades, observations. -/
structure TradingState where
  timestamp : Int
  traderData : String
  listings : List (Symbol × Listing)
  order_depths : List (Symbol × OrderDepth)
  own_trades : List (Symbol × List Trade)
  market_trades : List (Symbol × List Trade)
  position : List (Symbol × Int)
  observations : Observation
deriving DecidableEq

inductive PyKey where
  | kint (n : Int)
  | kstr (s : String)

mutual
inductive PyVal where
  | int (n : Int)
  | str (s : String)
  | list (l : PyList)
  | dict (l : PyDict)

inductive PyList where
  | nil
  | cons (v : PyVal) (l : PyList)

inductive PyDict where
  | nil
  | cons (k : PyKey) (v : PyVal) (l : PyDict)
end
/-- Convert a Lean list of values into the `PyList` payload. -/
def PyList.ofList : List PyVal → PyList
  | [] => .nil
  | v :: vs => .cons v (PyList.ofList vs)

/-- Convert a Lean list of key/value pairs into the `PyDict` payload. -/
def PyDict.ofList : List (PyKey × PyVal) → PyDict
  | [] => .nil
  | (k, v) :: es => .cons k v (PyDict.ofList es)

/-- One lowercase hex digit, as produced by CPython `\uXXXX` escapes. -/
def hexDigit (n : Nat) : Char :=
  if n < 10 then Char.ofNat (48 + n) else Char.ofNat (87 + n)

/-- Four lowercase hex digits. -/
def hex4 (n : Nat) : String :=
  String.mk [hexDigit (n / 4096 % 16), hexDigit (n / 256 % 16),
             hexDigit (n / 16 % 16), hexDigit (n % 16)]

/-- CPython `json` non-ASCII escape: `\uXXXX`, with a surrogate pair
for code points above `0xFFFF`. -/
def uEscape (n : Nat) : String :=
  if n < 65536 then "\\u" ++ hex4 n
  else
    "\\u" ++ hex4 (55296 + (n - 65536) / 1024) ++
    "\\u" ++ hex4 (56320 + (n - 65536) % 1024)

/-- CPython `json.dumps` escaping (default `ensure_ascii=True`) of a
single character of a JSON string. -/
def escapeChar (c : Char) : String :=
  if c = '\\' then "\\\\"
  else if c = '"' then "\\\""
  else if c = '\n' then "\\n"
  else if c = '\r' then "\\r"
  else if c = '\t' then "\\t"
  else if c.toNat = 8 then "\\b"
  else if c.toNat = 12 then "\\f"
  else if c.toNat < 32 ∨ 126 < c.toNat then uEscape c.toNat
  else String.singleton c

/-- Escape every character of a string body. -/
def escapeList : List Char → List Char
  | [] => []
  | c :: cs => (escapeChar c).data ++ escapeList cs

/-- The serialized form of a JSON string: quotes around the escaped
body. -/
def quoteStr (s : String) : String :=
  "\"" ++ String.mk (escapeList s.data) ++ "\""

/-- Serialization of a dict key: CPython coerces int keys to their
decimal representation and wraps every key in quotes. -/
def dumpsKey : PyKey → String
  | .kint n => "\"" ++ toString n ++ "\""
  | .kstr s => quoteStr s

mutual
/-- `json.dumps(value, separators=(",", ":"))` on the embedded Python
values: compact separators, `ensure_ascii` string escaping. -/
def dumps : PyVal → String
  | .int n => toString n
  | .str s => quoteStr s
  | .list l => "[" ++ dumpsElems l ++ "]"
  | .dict l => "\x7b" ++ dumpsKVs l ++ "\x7d"

/-- Comma-separated serialization of array elements. -/
def dumpsElems : PyList → String
  | .nil => ""
  | .cons v .nil => dumps v
  | .cons v (.cons w l) => dumps v ++ "," ++ dumpsElems (.cons w l)

/-- Comma-separated serialization of object entries. -/
def dumpsKVs : PyDict → String
  | .nil => ""
  | .cons k v .nil => dumpsKey k ++ ":" ++ dumps v
  | .cons k v (.cons k2 v2 l) =>
      dumpsKey k ++ ":" ++ dumps v ++ "," ++ dumpsKVs (.cons k2 v2 l)
end
/-- `self.max_log_length = 3750`. -/
def Logger.max_log_length : Int := 3750

/-- `Logger.compress_listings`: each listing flattened to
`[symbol, product, denomination]`, iterating the dict values in
order. -/
def Logger.compress_listings (listings : List (Symbol × Listing)) : PyVal :=
  .list (PyList.ofList (listings.map fun p =>
    .list (PyList.ofList [.str p.2.symbol, .str p.2.product, .str p.2.denomination])))

/-- `Logger.compress_order_depths`: a dict mapping each symbol to the
two-element list `[buy_orders, sell_orders]` of raw price→quantity
dicts. -/
def Logger.compress_order_depths (order_depths : List (Symbol × OrderDepth)) : PyVal :=
  .dict (PyDict.ofList (order_depths.map fun p =>
    (.kstr p.1,
     .list (PyList.ofList
       [.dict (PyDict.ofList (p.2.buy_orders.map fun q => (.kint q.1, .int q.2))),
        .dict (PyDict.ofList (p.2.sell_orders.map fun q => (.kint q.1, .int q.2)))]))))

/-- `Logger.compress_trades`: all trades across all symbols flattened,
in iteration order, to `[symbol, price, quantity, buyer, seller,
timestamp]`. -/
def Logger.compress_trades (trades : List (Symbol × List Trade)) : PyVal :=
  .list (PyList.ofList ((trades.map fun p => p.2.map fun t =>
    PyVal.list (PyList.ofList
      [.str t.symbol, .int t.price, .int t.quantity,
       .str t.buyer, .str t.seller, .int t.timestamp])).flatten))

/-- `Logger.compress_observations`:
`[plainValueObservations, conversionObservations]` with each
conversion observation flattened to its seven numeric fields. -/
def Logger.compress_observations (observations : Observation) : PyVal :=
  .list (PyList.ofList
    [.dict (PyDict.ofList (observations.plainValueObservations.map fun p =>
        (.kstr p.1, .int p.2))),
     .dict (PyDict.ofList (observations.conversionObservations.map fun p =>
        (.kstr p.1,
         .list (PyList.ofList
           [.int p.2.bidPrice, .int p.2.askPrice, .int p.2.transportFees,
            .int p.2.exportTariff, .int p.2.importTariff,
            .int p.2.sugarPrice, .int p.2.sunlightIndex]))))])

/-- `Logger.compress_orders`: all orders across all symbols flattened,
in iteration order, to `[symbol, price, quantity]`. -/
def Logger.compress_orders (orders : List (Symbol × List Order)) : PyVal :=
  .list (PyList.ofList ((orders.map fun p => p.2.map fun o =>
    PyVal.list (PyList.ofList [.str o.symbol, .int o.price, .int o.quantity])).flatten))

/-- `Logger.compress_state`: the eight-element positional array
`[timestamp, trader_data, listings, order_depths, own_trades,
market_trades, position, observations]`. -/
def Logger.compress_state (state : TradingState) (trader_data : String) : PyVal :=
  .list (PyList.ofList
    [.int state.timestamp,
     .str trader_data,
     Logger.compress_listings state.listings,
     Logger.compress_order_depths state.order_depths,
     Logger.compress_trades state.own_trades,
     Logger.compress_trades state.market_trades,
     .dict (PyDict.ofList (state.position.map fun p => (.kstr p.1, .int p.2))),
     Logger.compress_observations state.observations])

/-- `Logger.to_json`: `json.dumps(value, cls=ProsperityEncoder,
separators=(",", ":"))`. -/
def Logger.to_json (value : PyVal) : String := dumps value

/-- `value[:k]` — Python slice-from-start by code points; a negative
`k` drops `-k` characters from the end (empty if it exceeds the
length). -/
def pySlice (s : String) (k : Int) : String :=
  if 0 ≤ k then String.mk (s.data.take k.toNat)
  else String.mk (s.data.take (s.length - (-k).toNat))

/-- `Logger.truncate`: return `value` unchanged if it fits in
`max_length`, else cut to `max_length - 3` characters and append
`"..."`. -/
def Logger.truncate (value : String) (max_length : Int) : String :=
  if (value.length : Int) ≤ max_length then value
  else pySlice value (max_length - 3) ++ "..."

/-- `Logger.flush`: measure the envelope with the three free-text
fields blanked, split the remaining budget in three, truncate each
free-text field to its share, emit the serialized envelope, and clear
the debug buffer.  Returns `(emitted line, new logs buffer)`. -/
def Logger.flush (logs : String) (state : TradingState)
    (orders : List (Symbol × List Order)) (conversions : Int)
    (trader_data : String) : String × String :=
  let base_length : Int :=
    (Logger.to_json (.list (PyList.ofList
      [Logger.compress_state state "",
       Logger.compress_orders orders,
       .int conversions,
       .str "",
       .str ""]))).length
  let max_item_length : Int := (Logger.max_log_length - base_length).fdiv 3
  let out :=
    Logger.to_json (.list (PyList.ofList
      [Logger.compress_state state (Logger.truncate state.traderData max_item_length),
       Logger.compress_orders orders,
       .int conversions,
       .str (Logger.truncate trader_data max_item_length),
       .str (Logger.truncate logs max_item_length)]))
  (out, "")

/-- A character that CPython `json` serializes as itself: printable
ASCII other than the quote and the backslash. -/
def plainChar (c : Char) : Bool :=
  decide (32 ≤ c.toNat) && decide (c.toNat ≤ 126) && !(c == '"') && !(c == '\\')

/-- A string all of whose characters serialize as themselves. -/
def plainStr (s : String) : Bool := s.data.all plainChar

/-- The baseline length `flush` computes: the envelope with the three
free-text fields blanked. -/
def flushBaseLength (state : TradingState) (orders : List (Symbol × List Order))
    (conversions : Int) : Nat :=
  (Logger.to_json (.list (PyList.ofList
    [Logger.compress_state state "",
     Logger.compress_orders orders,
     .int conversions,
     .str "",
     .str ""]))).length

/-- The per-field budget `flush` computes:
`(max_log_length - base_length) // 3` (Python floor division). -/
def maxItemLength (state : TradingState) (orders : List (Symbol × List Order))
    (conversions : Int) : Int :=
  (Logger.max_log_length - (flushBaseLength state orders conversions : Int)).fdiv 3

/-- The per-symbol entry built by `compress_order_depths` (the loop
body of the Python `for symbol, order_depth in order_depths.items()`),
named so the round-trip proof can unfold one entry at a time. -/
def encodeDepthEntry (p : Symbol × OrderDepth) : PyKey × PyVal :=
  (.kstr p.1,
   .list (PyList.ofList
     [.dict (PyDict.ofList (p.2.buy_orders.map fun q => (.kint q.1, .int q.2))),
      .dict (PyDict.ofList (p.2.sell_orders.map fun q => (.kint q.1, .int q.2)))]))

/-- Inverse of the price→quantity dict encoding. -/
def decodeIntPairs : PyDict → Option (List (Int × Int))
  | .nil => some []
  | .cons (.kint p) (.int q) rest => (decodeIntPairs rest).map (fun l => (p, q) :: l)
  | _ => none

/-- Inverse of the per-symbol `[buy_orders, sell_orders]` encoding. -/
def decodeOrderDepths : PyDict → Option (List (Symbol × OrderDepth))
  | .cons (.kstr s) (.list (.cons (.dict b) (.cons (.dict l) .nil))) rest =>
      match decodeIntPairs b, decodeIntPairs l, decodeOrderDepths rest with
      | some bb, some ll, some rr => some ((s, ⟨bb, ll⟩) :: rr)
      | _, _, _ => none
  | .nil => some []
  | _ => none

/-- Inverse of `Logger.compress_order_depths`. -/
def decompress_order_depths : PyVal → Option (List (Symbol × OrderDepth))
  | .dict entries => decodeOrderDepths entries
  | _ => none

/-- A string of `n` double-quote characters; each one doubles in
length under JSON escaping. -/
def qstr (n : Nat) : String := String.mk (List.replicate n '"')

/-- A `TradingState` that is empty except for a long trader-state
string made of quote characters. -/
def c2state : TradingState :=
  { timestamp := 0, traderData := qstr 2000, listings := [], order_depths := [],
    own_trades := [], market_trades := [], position := [],
    observations := ⟨[], []⟩ }

/-- A small concrete tick with a short plain trader-state string. -/
def c2witness : TradingState :=
  { timestamp := 7, traderData := "hello", listings := [], order_depths := [],
    own_trades := [], market_trades := [], position := [],
    observations := ⟨[], []⟩ }

structure Product where
  limit : Int
  position : Int
  id : String
deriving DecidableEq

/-- `Product.update`: refresh `position` from the position mapping
of the tick, defaulting to 0 when the symbol is absent. -/
def Product.update (p : Product) (state : TradingState) : Product :=
  match state.position.lookup p.id with
  | none => { p with position := 0 }
  | some v => { p with position := v }

/-- `Product.trade` (the base-class placeholder): update, then return
no orders and no log output. -/
def Product.trade (p : Product) (state : TradingState) :
    Option (List Order × String) :=
  let _ := p.update state
  some ([], "")

/-- The first `if` block of `RainforestResin.trade` (`if
len(order_depth.sell_orders) != 0`): take the lowest ask if it is
strictly below the fair price, clipping the quantity to the remaining
buy headroom `limit - position`.  `List.min?` is `none` exactly when
the sell side is empty, which models the guarded skip; the inner dict
lookup of the best ask cannot actually fail. -/
def RainforestResin.buySide (p : Product) (fair_price : Int)
    (order_depth : OrderDepth) : Option (List Order × String) :=
  match (order_depth.sell_orders.map Prod.fst).min? with
  | none => some ([], "")
  | some best_ask =>
    match order_depth.sell_orders.lookup best_ask with
    | none => none
    | some v =>
      let best_ask_volume := -1 * v
      if best_ask < fair_price then
        let quantity := min best_ask_volume (p.limit - p.position)
        some ([⟨p.id, best_ask, quantity⟩],
          "Buying " ++ toString quantity ++ " " ++ p.id ++ " @ "
            ++ toString best_ask ++ "\n")
      else some ([], "")

/-- The second `if` block of `RainforestResin.trade` (`if
len(order_depth.buy_orders) != 0`): hit the highest bid if it is
strictly above the fair price, clipping to the sell headroom
`limit + position` and encoding the order quantity negative. -/
def RainforestResin.sellSide (p : Product) (fair_price : Int)
    (order_depth : OrderDepth) : Option (List Order × String) :=
  match (order_depth.buy_orders.map Prod.fst).max? with
  | none => some ([], "")
  | some best_bid =>
    match order_depth.buy_orders.lookup best_bid with
    | none => none
    | some v =>
      let best_bid_volume := v
      if fair_price < best_bid then
        let quantity := min best_bid_volume (p.limit + p.position)
        some ([⟨p.id, best_bid, -quantity⟩],
          "Selling " ++ toString quantity ++ " " ++ p.id ++ " @ "
            ++ toString best_bid ++ "\n")
      else some ([], "")

/-- `RainforestResin.trade`: update the position, look up this
book of this symbol (`state.order_depths[self.id]` is a raising dict
lookup, so `none` models a `KeyError`), then market-take both sides
against a fixed fair value of 10000 and return the concatenated
orders and log text. -/
def RainforestResin.trade (p0 : Product) (state : TradingState) :
    Option (List Order × String) :=
  let p := p0.update state
  match state.order_depths.lookup p.id with
  | none => none
  | some order_depth =>
    let fair_price : Int := 10000
    match RainforestResin.buySide p fair_price order_depth with
    | none => none
    | some (buyOrders, buyText) =>
      match RainforestResin.sellSide p fair_price order_depth with
      | none => none
      | some (sellOrders, sellText) =>
        some (buyOrders ++ sellOrders, buyText ++ sellText)

/-- `Kelp.trade`: update, then return no orders. -/
def Kelp.trade (p0 : Product) (state : TradingState) :
    Option (List Order × String) :=
  let _ := p0.update state
  some ([], "")

/-- The two registered policy classes. -/
inductive PolicyKind where
  | rainforestResin
  | kelp
deriving DecidableEq

/-- Dispatch to `trade` on the registered instance.  The `position`
field stored in the instance is irrelevant to the result because
`trade` begins with `update`, which overwrites it from the tick. -/
def PolicyKind.trade : PolicyKind → TradingState → Option (List Order × String)
  | .rainforestResin => RainforestResin.trade ⟨50, 0, "RAINFOREST_RESIN"⟩
  | .kelp => Kelp.trade ⟨50, 0, "KELP"⟩

/-- `Trader.products`: the fixed symbol→policy registry. -/
def Trader.products : List (Symbol × PolicyKind) :=
  [("RAINFOREST_RESIN", .rainforestResin), ("KELP", .kelp)]

/-- The loop body of `Trader.run`: iterate the order-book
symbols, log `"Processing product: ..."` for each, and run the
registered policy when there is one.  Returns the collected results
and the text appended to the debug buffer. -/
def Trader.runLoop (state : TradingState) :
    List Symbol → Option (List (Symbol × List Order) × String)
  | [] => some ([], "")
  | product :: rest =>
    let txt := "Processing product: " ++ product ++ "\n"
    match Trader.products.lookup product with
    | none =>
      (Trader.runLoop state rest).map fun r => (r.1, txt ++ r.2)
    | some pol =>
      match pol.trade state with
      | none => none
      | some (os, t) =>
        (Trader.runLoop state rest).map fun r =>
          ((product, os) :: r.1, txt ++ t ++ r.2)

/-- The value `Trader.run` produces in one tick: the emitted telemetry
line, the orders map, the conversion count, the outgoing trader-state
string, and the logger buffer after the flush. -/
structure RunResult where
  output : String
  result : List (Symbol × List Order)
  conversions : Int
  trader_data : String
  logs : String
deriving DecidableEq

/-- `Trader.run`: process every symbol of the tick, then flush the
logger with the aggregated orders, `conversions = 1` and
`trader_data = ""` as the final action before returning. -/
def Trader.run (logs : String) (state : TradingState) : Option RunResult :=
  match Trader.runLoop state (state.order_depths.map Prod.fst) with
  | none => none
  | some (result, txt) =>
    let conversions : Int := 1
    let trader_data := ""
    let flushed := Logger.flush (logs ++ txt) state result conversions trader_data
    some ⟨flushed.1, result, conversions, trader_data, flushed.2⟩

/-- Sum of the positive (buy-direction) quantities of a list of
orders. -/
def sumPos (os : List Order) : Int :=
  os.foldl (fun a o => if 0 < o.quantity then a + o.quantity else a) 0

/-- Sum of the negative (sell-direction) quantities of a list of
orders. -/
def sumNeg (os : List Order) : Int :=
  os.foldl (fun a o => if o.quantity < 0 then a + o.quantity else a) 0

/-- The orders map `Trader.run` collects when its loop runs over the
key list `keys`: one entry per registered symbol, keyed by symbol, in
iteration order (closed form of the loop, used to state C8). -/
def runResultOn (state : TradingState) (keys : List Symbol) :
    List (Symbol × List Order) :=
  keys.filterMap fun sym =>
    match Trader.products.lookup sym with
    | none => none
    | some pol =>
      match pol.trade state with
      | none => none
      | some r => some (sym, r.1)

/-- The orders map `Trader.run` collects for a tick. -/
def runResultModel (state : TradingState) : List (Symbol × List Order) :=
  runResultOn state (state.order_depths.map Prod.fst)

/-- The debug text accumulated by the `Trader.run` loop: one
`"Processing product:"` line per symbol plus the log output of each policy. -/
def runLogModel (state : TradingState) : List Symbol → String
  | [] => ""
  | product :: rest =>
    let txt := "Processing product: " ++ product ++ "\n"
    match Trader.products.lookup product with
    | none => txt ++ runLogModel state rest
    | some pol =>
      match pol.trade state with
      | none => txt ++ runLogModel state rest
      | some r => txt ++ r.2 ++ runLogModel state rest

/-- The C9 scenario: best ask 9998 of size 10 (encoded -10), position
48, limit 50. -/
def c9state : TradingState :=
  { timestamp := 0, traderData := "", listings := [],
    order_depths := [("RAINFOREST_RESIN", ⟨[], [(9998, -10)]⟩)],
    own_trades := [], market_trades := [],
    position := [("RAINFOREST_RESIN", 48)], observations := ⟨[], []⟩ }

/-- A tick in which the policy is already at its position limit while
a below-fair ask is available. -/
def c3state : TradingState :=
  { timestamp := 0, traderData := "", listings := [],
    order_depths := [("RAINFOREST_RESIN", ⟨[], [(9998, -10)]⟩)],
    own_trades := [], market_trades := [],
    position := [("RAINFOREST_RESIN", 50)], observations := ⟨[], []⟩ }

/-- A tick with no order book at all (the symbol of the policy absent from
`order_depths`). -/
def c4state : TradingState :=
  { timestamp := 0, traderData := "", listings := [], order_depths := [],
    own_trades := [], market_trades := [],
    position := [], observations := ⟨[], []⟩ }

/-! ### Helper lemmas -/

lemma length_mk (l : List Char) : (String.mk l).length = l.length := rfl

lemma length_eq_data_length (s : String) : s.length = s.data.length := rfl

lemma data_mk (l : List Char) : (String.mk l).data = l := rfl

lemma escapeList_append (a b : List Char) :
    escapeList (a ++ b) = escapeList a ++ escapeList b := by
  induction a with
  | nil => rfl
  | cons c cs ih => simp [escapeList, ih]

lemma escapeChar_plain {c : Char} (h : plainChar c = true) :
    escapeChar c = String.singleton c := by
  have h32 : 32 ≤ c.toNat := by
    have := (Bool.and_eq_true _ _).mp ((Bool.and_eq_true _ _).mp ((Bool.and_eq_true _ _).mp h).1).1
    exact of_decide_eq_true this.1
  have h126 : c.toNat ≤ 126 := by
    have := (Bool.and_eq_true _ _).mp ((Bool.and_eq_true _ _).mp ((Bool.and_eq_true _ _).mp h).1).1
    exact of_decide_eq_true this.2
  have hq : ¬(c = '"') := by
    have := ((Bool.and_eq_true _ _).mp ((Bool.and_eq_true _ _).mp h).1).2
    simpa using this
  have hb : ¬(c = '\\') := by
    have := ((Bool.and_eq_true _ _).mp h).2
    simpa using this
  have hn : ¬(c = '\n') := by intro hc; subst hc; exact absurd h (by decide)
  have hr : ¬(c = '\r') := by intro hc; subst hc; exact absurd h (by decide)
  have ht : ¬(c = '\t') := by intro hc; subst hc; exact absurd h (by decide)
  have h8 : ¬(c.toNat = 8) := by omega
  have h12 : ¬(c.toNat = 12) := by omega
  have hu : ¬(c.toNat < 32 ∨ 126 < c.toNat) := by omega
  simp [escapeChar, hq, hb, hn, hr, ht, h8, h12, hu]

lemma escapeList_length_of_plain {l : List Char} (h : l.all plainChar = true) :
    (escapeList l).length = l.length := by
  induction l with
  | nil => rfl
  | cons c cs ih =>
    simp only [List.all_cons, Bool.and_eq_true] at h
    simp [escapeList, escapeChar_plain h.1, ih h.2, String.singleton]

lemma escapeList_replicate_quote (n : Nat) :
    (escapeList (List.replicate n '"')).length = 2 * n := by
  induction n with
  | zero => rfl
  | succ m ih =>
    rw [List.replicate_succ]
    simp only [escapeList]
    rw [List.length_append, ih]
    have h2 : ((escapeChar '"').data).length = 2 := by decide
    rw [h2]
    omega

lemma truncate_of_le {s : String} {m : Int} (h : (s.length : Int) ≤ m) :
    Logger.truncate s m = s := by
  unfold Logger.truncate
  rw [if_pos h]

lemma truncate_of_gt {s : String} {m : Int} (h : m < (s.length : Int)) :
    Logger.truncate s m = pySlice s (m - 3) ++ "..." := by
  unfold Logger.truncate
  rw [if_neg (by omega)]

lemma pySlice_length_of_nonneg {s : String} {k : Int} (hk : 0 ≤ k) :
    (pySlice s k).length = min k.toNat s.length := by
  unfold pySlice
  rw [if_pos hk, length_mk, List.length_take]
  rfl

lemma truncate_length_of_gt {s : String} {m : Int} (h3 : 3 ≤ m)
    (h : m < (s.length : Int)) :
    ((Logger.truncate s m).length : Int) = m := by
  rw [truncate_of_gt h]
  rw [String.length_append, pySlice_length_of_nonneg (by omega)]
  have : ("..." : String).length = 3 := rfl
  rw [this]
  have hs : (m - 3).toNat ≤ s.length := by omega
  omega

lemma truncate_length_le {s : String} {m : Int} (h3 : 3 ≤ m) :
    ((Logger.truncate s m).length : Int) ≤ m := by
  by_cases h : (s.length : Int) ≤ m
  · rw [truncate_of_le h]; exact h
  · rw [truncate_length_of_gt h3 (by omega)]

lemma plainStr_truncate {s : String} {m : Int} (h : plainStr s = true) :
    plainStr (Logger.truncate s m) = true := by
  unfold Logger.truncate
  split
  · exact h
  · unfold plainStr at h ⊢
    rw [String.data_append]
    rw [List.all_append]
    refine (Bool.and_eq_true _ _).mpr ⟨?_, by decide⟩
    unfold pySlice
    split <;>
      exact List.all_eq_true.mpr fun c hc =>
        List.all_eq_true.mp h c (List.mem_of_mem_take hc)

lemma flush_length_eq (logs : String) (state : TradingState)
    (orders : List (Symbol × List Order)) (conversions : Int) (trader_data : String) :
    ((Logger.flush logs state orders conversions trader_data).1).length
      = flushBaseLength state orders conversions
        + (escapeList (Logger.truncate state.traderData
            (maxItemLength state orders conversions)).data).length
        + (escapeList (Logger.truncate trader_data
            (maxItemLength state orders conversions)).data).length
        + (escapeList (Logger.truncate logs
            (maxItemLength state orders conversions)).data).length := by
  simp only [Logger.flush, flushBaseLength, maxItemLength, Logger.to_json,
    Logger.compress_state, PyList.ofList, dumps, dumpsElems, quoteStr,
    String.length_append, length_mk]
  have hempty : (escapeList ("" : String).data).length = 0 := rfl
  rw [hempty]
  omega

lemma decodeIntPairs_roundtrip (l : List (Int × Int)) :
    decodeIntPairs (PyDict.ofList (l.map fun q => (.kint q.1, .int q.2))) = some l := by
  induction l with
  | nil => rfl
  | cons q rest ih => simp [PyDict.ofList, decodeIntPairs, ih]

lemma take_replicate_of_le {α : Type} (c : α) {n m : Nat} (h : n ≤ m) :
    (List.replicate m c).take n = List.replicate n c := by
  induction n generalizing m with
  | zero => simp
  | succ k ih =>
    cases m with
    | zero => omega
    | succ m2 =>
      rw [List.replicate_succ, List.replicate_succ, List.take_succ_cons,
        ih (by omega)]

lemma update_id (p : Product) (state : TradingState) :
    (p.update state).id = p.id := by
  unfold Product.update
  cases state.position.lookup p.id <;> rfl

lemma update_limit (p : Product) (state : TradingState) :
    (p.update state).limit = p.limit := by
  unfold Product.update
  cases state.position.lookup p.id <;> rfl

lemma update_position (p : Product) (state : TradingState) :
    (p.update state).position = (state.position.lookup p.id).getD 0 := by
  unfold Product.update
  cases state.position.lookup p.id <;> rfl

lemma lookup_mem {α β : Type} [BEq α] [LawfulBEq α] {l : List (α × β)} {k : α}
    {v : β} (h : l.lookup k = some v) : (k, v) ∈ l := by
  obtain ⟨l1, l2, rfl, -⟩ := List.lookup_eq_some_iff.mp h
  simp

lemma lookup_isSome_of_mem_keys {α β : Type} [BEq α] [LawfulBEq α]
    {l : List (α × β)} {k : α} (h : k ∈ l.map Prod.fst) :
    (l.lookup k).isSome := by
  rw [List.lookup_isSome_iff]
  obtain ⟨p, hp, rfl⟩ := List.mem_map.mp h
  exact ⟨p, hp, by simp⟩

lemma buySide_eq_some {p : Product} {fair : Int} {od : OrderDepth}
    {bo : List Order} {bt : String}
    (h : RainforestResin.buySide p fair od = some (bo, bt)) :
    bo = [] ∨ ∃ a v,
      bo = [⟨p.id, a, min (-1 * v) (p.limit - p.position)⟩] ∧
      (a, v) ∈ od.sell_orders ∧ a < fair := by
  unfold RainforestResin.buySide at h
  repeat' split at h
  all_goals try (exfalso; exact Option.noConfusion h)
  all_goals simp only [Option.some.injEq, Prod.mk.injEq] at h
  all_goals obtain ⟨h1, h2⟩ := h
  all_goals subst h1
  · exact Or.inl rfl
  · exact Or.inr ⟨_, _, rfl, lookup_mem (by assumption), by assumption⟩
  · exact Or.inl rfl

lemma sellSide_eq_some {p : Product} {fair : Int} {od : OrderDepth}
    {so : List Order} {st : String}
    (h : RainforestResin.sellSide p fair od = some (so, st)) :
    so = [] ∨ ∃ a v,
      so = [⟨p.id, a, -(min v (p.limit + p.position))⟩] ∧
      (a, v) ∈ od.buy_orders ∧ fair < a := by
  unfold RainforestResin.sellSide at h
  repeat' split at h
  all_goals try (exfalso; exact Option.noConfusion h)
  all_goals simp only [Option.some.injEq, Prod.mk.injEq] at h
  all_goals obtain ⟨h1, h2⟩ := h
  all_goals subst h1
  · exact Or.inl rfl
  · exact Or.inr ⟨_, _, rfl, lookup_mem (by assumption), by assumption⟩
  · exact Or.inl rfl

lemma trade_some_cases {p0 : Product} {state : TradingState} {os : List Order}
    {t : String} (h : RainforestResin.trade p0 state = some (os, t)) :
    ∃ od, state.order_depths.lookup p0.id = some od ∧
    ∃ ob osell, os = ob ++ osell ∧
      (ob = [] ∨ ∃ a v,
         ob = [⟨p0.id, a, min (-1 * v)
           (p0.limit - (state.position.lookup p0.id).getD 0)⟩] ∧
         (a, v) ∈ od.sell_orders ∧ a < 10000) ∧
      (osell = [] ∨ ∃ a v,
         osell = [⟨p0.id, a, -(min v
           (p0.limit + (state.position.lookup p0.id).getD 0))⟩] ∧
         (a, v) ∈ od.buy_orders ∧ 10000 < a) := by
  simp only [RainforestResin.trade, update_id] at h
  repeat' split at h
  all_goals try (exfalso; exact Option.noConfusion h)
  simp only [Option.some.injEq, Prod.mk.injEq] at h
  obtain ⟨h1, h2⟩ := h
  subst h1
  rename_i xop od hod bs bo bt heqb ss so st heqs
  have hb := buySide_eq_some heqb
  have hs := sellSide_eq_some heqs
  simp only [update_id, update_limit, update_position] at hb hs
  exact ⟨od, hod, bo, so, rfl, hb, hs⟩

lemma buySide_isSome (p : Product) (fair : Int) (od : OrderDepth) :
    (RainforestResin.buySide p fair od).isSome := by
  unfold RainforestResin.buySide
  repeat' split
  all_goals try rfl
  rename_i a hmin xx hlu
  have ha := List.min?_mem (fun x y : Int => min_choice x y) hmin
  have hs := lookup_isSome_of_mem_keys ha
  rw [hlu] at hs
  exact absurd hs (by simp)

lemma sellSide_isSome (p : Product) (fair : Int) (od : OrderDepth) :
    (RainforestResin.sellSide p fair od).isSome := by
  unfold RainforestResin.sellSide
  repeat' split
  all_goals try rfl
  rename_i a hmax xx hlu
  have ha := List.max?_mem (fun x y : Int => max_choice x y) hmax
  have hs := lookup_isSome_of_mem_keys ha
  rw [hlu] at hs
  exact absurd hs (by simp)

lemma rainforest_trade_isSome {state : TradingState}
    (h : "RAINFOREST_RESIN" ∈ state.order_depths.map Prod.fst) :
    (RainforestResin.trade ⟨50, 0, "RAINFOREST_RESIN"⟩ state).isSome := by
  simp only [RainforestResin.trade, update_id]
  obtain ⟨od, hod⟩ := Option.isSome_iff_exists.mp (lookup_isSome_of_mem_keys h)
  obtain ⟨⟨bo, bt⟩, hb⟩ := Option.isSome_iff_exists.mp
    (buySide_isSome ((⟨50, 0, "RAINFOREST_RESIN"⟩ : Product).update state) 10000 od)
  obtain ⟨⟨so, st2⟩, hs⟩ := Option.isSome_iff_exists.mp
    (sellSide_isSome ((⟨50, 0, "RAINFOREST_RESIN"⟩ : Product).update state) 10000 od)
  simp only [hod, hb, hs]
  rfl

lemma products_lookup_cases {sym : Symbol} {pol : PolicyKind}
    (h : Trader.products.lookup sym = some pol) :
    (sym = "RAINFOREST_RESIN" ∧ pol = .rainforestResin) ∨
    (sym = "KELP" ∧ pol = .kelp) := by
  simp only [Trader.products, List.lookup] at h
  repeat' split at h
  · rename_i hbeq
    exact Or.inl ⟨by simpa using hbeq, by injection h with h1; exact h1.symm⟩
  · rename_i hbeq2
    exact Or.inr ⟨by simpa using hbeq2, by injection h with h1; exact h1.symm⟩
  · exact absurd h (by simp)

lemma policy_trade_isSome {state : TradingState} {sym : Symbol} {pol : PolicyKind}
    (hmem : sym ∈ state.order_depths.map Prod.fst)
    (h : Trader.products.lookup sym = some pol) :
    (pol.trade state).isSome := by
  rcases products_lookup_cases h with ⟨rfl, rfl⟩ | ⟨rfl, rfl⟩
  · exact rainforest_trade_isSome hmem
  · rfl

lemma runLoop_eq (state : TradingState) :
    ∀ keys : List Symbol, (∀ sym ∈ keys, sym ∈ state.order_depths.map Prod.fst) →
    Trader.runLoop state keys
      = some (runResultOn state keys, runLogModel state keys) := by
  intro keys
  induction keys with
  | nil => intro; rfl
  | cons k rest ih =>
    intro hk
    have hkmem := hk k (List.mem_cons_self _ _)
    have ihr := ih fun s hs => hk s (List.mem_cons_of_mem _ hs)
    rcases hlook : Trader.products.lookup k with _ | pol
    · simp only [Trader.runLoop, hlook, ihr, runResultOn, runLogModel,
        List.filterMap_cons]
      rfl
    · rcases htr : pol.trade state with _ | r
      · have := policy_trade_isSome hkmem hlook
        rw [htr] at this
        exact absurd this (by simp)
      · obtain ⟨os, t⟩ := r
        simp only [Trader.runLoop, hlook, htr, ihr, runResultOn, runLogModel,
          List.filterMap_cons]
        rfl

lemma run_eq (logs : String) (state : TradingState) :
    Trader.run logs state
      = some ⟨(Logger.flush
            (logs ++ runLogModel state (state.order_depths.map Prod.fst))
            state (runResultModel state) 1 "").1,
          runResultModel state, 1, "", ""⟩ := by
  unfold Trader.run
  rw [runLoop_eq state _ (fun s hs => hs)]
  rfl

lemma runResultOn_keys (state : TradingState) :
    ∀ keys : List Symbol, (∀ sym ∈ keys, sym ∈ state.order_depths.map Prod.fst) →
    (runResultOn state keys).map Prod.fst
      = keys.filter fun sym => (Trader.products.lookup sym).isSome := by
  intro keys
  induction keys with
  | nil => intro; rfl
  | cons k rest ih =>
    intro hk
    have hkmem := hk k (List.mem_cons_self _ _)
    have ihr := ih fun s hs => hk s (List.mem_cons_of_mem _ hs)
    rcases hlook : Trader.products.lookup k with _ | pol
    · simp only [runResultOn, List.filterMap_cons, hlook, List.filter_cons]
      simp only [runResultOn] at ihr
      simp [ihr, hlook]
    · rcases htr : pol.trade state with _ | r
      · have := policy_trade_isSome hkmem hlook
        rw [htr] at this
        exact absurd this (by simp)
      · simp only [runResultOn, List.filterMap_cons, hlook, htr, List.filter_cons]
        simp only [runResultOn] at ihr
        simp [ihr, hlook]

/-! ### The claims -/

/-- C2 (counterexample): with an almost-empty tick whose three
free-text fields each consist of 2000 double-quote characters, the
character-count truncation fits each field under its share, but JSON
escaping doubles every quote during serialization, and the line
`Logger.flush` emits is 7449 characters long — far above the 3750
budget.  The claimed unconditional bound is false. -/
theorem flush_length_counterexample :
    3750 < ((Logger.flush (qstr 2000) c2state [] 1 (qstr 2000)).1).length := by
  rw [flush_length_eq]
  have hB : flushBaseLength c2state [] 1 = 42 := by decide
  have hm : maxItemLength c2state [] 1 = 1236 := by decide
  have hq : (qstr 2000).length = 2000 := by
    unfold qstr
    rw [length_mk, List.length_replicate]
  have hgt : (1236 : Int) < ((qstr 2000).length : Int) := by rw [hq]; norm_num
  have htr : Logger.truncate (qstr 2000) 1236 = qstr 1233 ++ "..." := by
    rw [truncate_of_gt hgt]
    suffices h : pySlice (qstr 2000) (1236 - 3) = qstr 1233 by rw [h]
    unfold pySlice
    rw [if_pos (by norm_num)]
    unfold qstr
    rw [data_mk]
    have h13 : ((1236 : Int) - 3).toNat = 1233 := by decide
    rw [h13, take_replicate_of_le _ (by norm_num)]
  have hesc : (escapeList (qstr 1233 ++ "...").data).length = 2469 := by
    rw [String.data_append, escapeList_append, List.length_append]
    have h1 : (escapeList (qstr 1233).data).length = 2466 := by
      show (escapeList (List.replicate 1233 '"')).length = 2466
      rw [escapeList_replicate_quote]
    have h2 : (escapeList ("..." : String).data).length = 3 := by decide
    omega
  have hc2 : c2state.traderData = qstr 2000 := rfl
  rw [hc2, hm, htr, hesc, hB]
  norm_num

/-- C2 (amended): if the structural baseline fits in the budget with
at least 9 characters to spare (so each free-text share is at least
3), and the three free-text fields contain only characters that JSON
serializes as themselves (printable ASCII other than quote and
backslash), then the emitted line is at most `max_log_length = 3750`
characters long. -/
theorem flush_length_bounded (logs : String) (state : TradingState)
    (orders : List (Symbol × List Order)) (conversions : Int) (trader_data : String)
    (hbase : flushBaseLength state orders conversions + 9 ≤ 3750)
    (h1 : plainStr state.traderData = true)
    (h2 : plainStr trader_data = true)
    (h3 : plainStr logs = true) :
    ((Logger.flush logs state orders conversions trader_data).1).length ≤ 3750 := by
  rw [flush_length_eq]
  set B := flushBaseLength state orders conversions with hB
  set m := maxItemLength state orders conversions with hm
  have hmdiv : m = ((3750 : Int) - B) / 3 := by
    rw [hm, maxItemLength, ← hB]
    show (Logger.max_log_length - (B : Int)).fdiv 3 = _
    rw [Int.fdiv_eq_ediv _ (by norm_num)]
    rfl
  have h3m : 3 ≤ m := by omega
  have key : ∀ s : String, plainStr s = true →
      (escapeList (Logger.truncate s m).data).length ≤ m.toNat := by
    intro s hs
    rw [escapeList_length_of_plain (plainStr_truncate hs),
      ← length_eq_data_length]
    have := truncate_length_le (s := s) h3m
    omega
  have k1 := key _ h1
  have k2 := key _ h2
  have k3 := key _ h3
  omega

/-- C2 (amended, witness): the bound instantiated at a concrete empty
tick with short plain free-text fields. -/
theorem flush_length_bounded_witness :
    ((Logger.flush "debug line" c2witness [] 1 "outgoing").1).length ≤ 3750 :=
  flush_length_bounded "debug line" c2witness [] 1 "outgoing"
    (by decide) (by decide) (by decide) (by decide)

/-- C5 (counterexample): with share `max_length = 0` and input
`"abcd"` (longer than the share), `Logger.truncate` returns `"a..."`,
whose length is 4, not the share: the Python negative slice bound keeps
one character and then appends three more.  The claim quantified over
every share is false. -/
theorem truncate_counterexample :
    Logger.truncate "abcd" 0 = "a..." ∧ ("a..." : String).length ≠ 0 :=
  ⟨by decide, by decide⟩

/-- C5 (amended): for every share of at least 3 units, `truncate`
returns the input unchanged when it fits, and otherwise returns a
string of exactly the share length that ends with the `"..."`
marker. -/
theorem truncate_spec (s : String) (m : Int) (h3 : 3 ≤ m) :
    ((s.length : Int) ≤ m → Logger.truncate s m = s) ∧
    (m < (s.length : Int) →
      ((Logger.truncate s m).length : Int) = m ∧
      ∃ t, Logger.truncate s m = t ++ "...") := by
  constructor
  · exact truncate_of_le
  · intro h
    exact ⟨truncate_length_of_gt h3 h, ⟨pySlice s (m - 3), truncate_of_gt h⟩⟩

/-- C5 (witness): the amended truncation contract at concrete
inputs — a six-character string cut to share 4, and a two-character
string left alone by share 4. -/
theorem truncate_spec_witness :
    ((Logger.truncate "abcdef" 4).length : Int) = 4 ∧
    Logger.truncate "ab" 4 = "ab" :=
  ⟨((truncate_spec "abcdef" 4 (by norm_num)).2 (by decide)).1,
   (truncate_spec "ab" 4 (by norm_num)).1 (by decide)⟩

/-- C6: `Logger.flush` always returns an empty debug buffer — the
buffer reset is the final, unconditional effect of every flush, for
every state, orders map, conversion count and trader-data string. -/
theorem flush_clears_logs (logs : String) (state : TradingState)
    (orders : List (Symbol × List Order)) (conversions : Int)
    (trader_data : String) :
    (Logger.flush logs state orders conversions trader_data).2 = "" := rfl

/-- C7: `Logger.compress_order_depths` is lossless: the explicit
inverse `decompress_order_depths` recovers the original order-depth
mapping exactly from the compressed form (hence the compression is
injective and invertible on order books). -/
theorem compress_order_depths_lossless (od : List (Symbol × OrderDepth)) :
    decompress_order_depths (Logger.compress_order_depths od) = some od := by
  have hrw : Logger.compress_order_depths od
      = .dict (PyDict.ofList (od.map encodeDepthEntry)) := rfl
  rw [hrw]
  show decodeOrderDepths (PyDict.ofList (od.map encodeDepthEntry)) = some od
  clear hrw
  induction od with
  | nil => rfl
  | cons e rest ih =>
    obtain ⟨s, ⟨b, l⟩⟩ := e
    simp only [List.map_cons, encodeDepthEntry, PyDict.ofList, PyList.ofList,
      decodeOrderDepths, decodeIntPairs_roundtrip, ih]

/-- C1: whenever the current position read from the tick lies in
`[-limit, limit]` and every sell-side quantity in the tick is encoded
non-positive and every buy-side quantity non-negative, the orders
returned by `RainforestResin.trade` keep the worst-case filled
position inside `[-limit, limit]`: position plus the sum of positive
order quantities is at most `limit`, and position plus the sum of
negative order quantities is at least `-limit`. -/
theorem rainforest_trade_within_limits (p0 : Product) (state : TradingState)
    (os : List Order) (t : String)
    (hlo : -p0.limit ≤ (state.position.lookup p0.id).getD 0)
    (hhi : (state.position.lookup p0.id).getD 0 ≤ p0.limit)
    (hsell : ∀ od ∈ state.order_depths, ∀ e ∈ od.2.sell_orders, e.2 ≤ 0)
    (hbuy : ∀ od ∈ state.order_depths, ∀ e ∈ od.2.buy_orders, 0 ≤ e.2)
    (htr : RainforestResin.trade p0 state = some (os, t)) :
    (state.position.lookup p0.id).getD 0 + sumPos os ≤ p0.limit ∧
    -p0.limit ≤ (state.position.lookup p0.id).getD 0 + sumNeg os := by
  obtain ⟨od, hod, ob, osell, rfl, hb, hs⟩ := trade_some_cases htr
  have hmem := lookup_mem hod
  rcases hb with rfl | ⟨a, v, rfl, hmemv, hlt⟩ <;>
    rcases hs with rfl | ⟨b, w, rfl, hmemw, hgt⟩
  · simp [sumPos, sumNeg]; omega
  · have hw : (0 : Int) ≤ w := hbuy _ hmem _ hmemw
    have h1 : (0 : Int) ≤ min w (p0.limit + (state.position.lookup p0.id).getD 0) :=
      le_min hw (by omega)
    have h2 : min w (p0.limit + (state.position.lookup p0.id).getD 0)
        ≤ p0.limit + (state.position.lookup p0.id).getD 0 := min_le_right _ _
    simp [sumPos, sumNeg]
    split_ifs <;> omega
  · have hv : v ≤ (0 : Int) := hsell _ hmem _ hmemv
    have h1 : (0 : Int) ≤ min (-1 * v) (p0.limit - (state.position.lookup p0.id).getD 0) :=
      le_min (by omega) (by omega)
    have h2 : min (-1 * v) (p0.limit - (state.position.lookup p0.id).getD 0)
        ≤ p0.limit - (state.position.lookup p0.id).getD 0 := min_le_right _ _
    simp [sumPos, sumNeg]
    split_ifs <;> omega
  · have hv : v ≤ (0 : Int) := hsell _ hmem _ hmemv
    have hw : (0 : Int) ≤ w := hbuy _ hmem _ hmemw
    have h1 : (0 : Int) ≤ min (-1 * v) (p0.limit - (state.position.lookup p0.id).getD 0) :=
      le_min (by omega) (by omega)
    have h2 : min (-1 * v) (p0.limit - (state.position.lookup p0.id).getD 0)
        ≤ p0.limit - (state.position.lookup p0.id).getD 0 := min_le_right _ _
    have h3 : (0 : Int) ≤ min w (p0.limit + (state.position.lookup p0.id).getD 0) :=
      le_min hw (by omega)
    have h4 : min w (p0.limit + (state.position.lookup p0.id).getD 0)
        ≤ p0.limit + (state.position.lookup p0.id).getD 0 := min_le_right _ _
    simp [sumPos, sumNeg]
    split_ifs <;> omega

/-- C1 (witness): the invariant instantiated at the concrete C9
scenario (position 48, limit 50, one buy order of quantity 2). -/
theorem rainforest_trade_within_limits_witness :
    (c9state.position.lookup "RAINFOREST_RESIN").getD 0
        + sumPos [⟨"RAINFOREST_RESIN", 9998, 2⟩] ≤ 50 ∧
    (-50 : Int) ≤ (c9state.position.lookup "RAINFOREST_RESIN").getD 0
        + sumNeg [⟨"RAINFOREST_RESIN", 9998, 2⟩] :=
  rainforest_trade_within_limits ⟨50, 0, "RAINFOREST_RESIN"⟩ c9state
    [⟨"RAINFOREST_RESIN", 9998, 2⟩] "Buying 2 RAINFOREST_RESIN @ 9998\n"
    (by decide) (by decide) (by decide) (by decide) (by decide)

/-- C3 (counterexample): at position 50 = limit with a below-fair ask
available, the computed buy quantity is `min(10, 50 - 50) = 0 ≤ 0`,
yet `RainforestResin.trade` still emits a buy order — of quantity 0,
so not of strictly positive magnitude.  The code has no skip-if-≤0
check; the claim as stated is false. -/
theorem trade_zero_quantity_counterexample :
    RainforestResin.trade ⟨50, 0, "RAINFOREST_RESIN"⟩ c3state
      = some ([⟨"RAINFOREST_RESIN", 9998, 0⟩],
          "Buying 0 RAINFOREST_RESIN @ 9998\n") := by decide

/-- C3 (amended): under the same sign-encoding and position-limit
hypotheses as C1, every order `RainforestResin.trade` emits is a
below-fair-priced buy with non-negative quantity or an
above-fair-priced sell with non-positive quantity; zero-quantity
orders are emitted rather than skipped when the computed `min` is
zero. -/
theorem trade_order_signs (p0 : Product) (state : TradingState)
    (os : List Order) (t : String)
    (hlo : -p0.limit ≤ (state.position.lookup p0.id).getD 0)
    (hhi : (state.position.lookup p0.id).getD 0 ≤ p0.limit)
    (hsell : ∀ od ∈ state.order_depths, ∀ e ∈ od.2.sell_orders, e.2 ≤ 0)
    (hbuy : ∀ od ∈ state.order_depths, ∀ e ∈ od.2.buy_orders, 0 ≤ e.2)
    (htr : RainforestResin.trade p0 state = some (os, t)) :
    ∀ o ∈ os, (o.price < 10000 ∧ 0 ≤ o.quantity) ∨
      (10000 < o.price ∧ o.quantity ≤ 0) := by
  obtain ⟨od, hod, ob, osell, rfl, hb, hs⟩ := trade_some_cases htr
  have hmem := lookup_mem hod
  intro o ho
  rcases List.mem_append.mp ho with hob | hos
  · rcases hb with rfl | ⟨a, v, rfl, hmemv, hlt⟩
    · simp at hob
    · have hv : v ≤ (0 : Int) := hsell _ hmem _ hmemv
      rw [List.mem_singleton] at hob
      subst hob
      exact Or.inl ⟨hlt, le_min (by omega) (by omega)⟩
  · rcases hs with rfl | ⟨b, w, rfl, hmemw, hgt⟩
    · simp at hos
    · have hw : (0 : Int) ≤ w := hbuy _ hmem _ hmemw
      rw [List.mem_singleton] at hos
      subst hos
      refine Or.inr ⟨hgt, ?_⟩
      show -(min w (p0.limit + (state.position.lookup p0.id).getD 0)) ≤ 0
      have : (0 : Int) ≤ min w (p0.limit + (state.position.lookup p0.id).getD 0) :=
        le_min hw (by omega)
      omega

/-- C3 (amended, witness): the sign characterization applied to the
concrete buy order of the C9 scenario. -/
theorem trade_order_signs_witness :
    (9998 : Int) < 10000 ∧ (0 : Int) ≤ 2 ∨ (10000 : Int) < 9998 ∧ (2 : Int) ≤ 0 :=
  trade_order_signs ⟨50, 0, "RAINFOREST_RESIN"⟩ c9state
    [⟨"RAINFOREST_RESIN", 9998, 2⟩] "Buying 2 RAINFOREST_RESIN @ 9998\n"
    (by decide) (by decide) (by decide) (by decide) (by decide)
    ⟨"RAINFOREST_RESIN", 9998, 2⟩ (by decide)

/-- C4: on a tick whose order-depth mapping has no entry for
RAINFOREST_RESIN, `RainforestResin.trade` fails (the Python
`state.order_depths[self.id]` raises `KeyError`, modelled as `none`)
instead of returning the empty order list the spec requires. -/
theorem trade_missing_book_raises :
    RainforestResin.trade ⟨50, 0, "RAINFOREST_RESIN"⟩ c4state = none := by decide

/-- C8: `Trader.run` processes exactly the registered symbols of the
order-depth mapping of the tick, in order, collecting the result of
each registered policy keyed by symbol (each policy refreshes its
position inside `trade` before deciding); unregistered symbols never
appear in the result; and the emitted telemetry line is
`Logger.flush` applied to the tick, the fully aggregated orders map
and the complete accumulated debug text — i.e. the flush happens
after all decisions, as the final action before returning. -/
theorem trader_run_orchestration (logs : String) (state : TradingState) :
    Trader.run logs state
      = some ⟨(Logger.flush
            (logs ++ runLogModel state (state.order_depths.map Prod.fst))
            state (runResultModel state) 1 "").1,
          runResultModel state, 1, "", ""⟩ ∧
    (runResultModel state).map Prod.fst
      = (state.order_depths.map Prod.fst).filter
          (fun sym => (Trader.products.lookup sym).isSome) ∧
    ∀ sym, Trader.products.lookup sym = none →
      ∀ os, (sym, os) ∉ runResultModel state := by
  refine ⟨run_eq logs state, runResultOn_keys state _ (fun s hs => hs), ?_⟩
  intro sym hnone os hmem
  have : sym ∈ (runResultModel state).map Prod.fst :=
    List.mem_map.mpr ⟨(sym, os), hmem, rfl⟩
  simp only [runResultModel] at this
  rw [runResultOn_keys state _ (fun s hs => hs)] at this
  have := List.of_mem_filter this
  rw [hnone] at this
  exact absurd this (by simp)

/-- C8 (witness): the skip clause applied at the concrete C9 tick to
a symbol with no registered policy. -/
theorem trader_run_orchestration_witness :
    ("SQUID_INK", ([] : List Order)) ∉ runResultModel c9state :=
  (trader_run_orchestration "" c9state).2.2 "SQUID_INK" (by decide) []

/-- C9: with best ask 9998 of available size 10 (sell quantity encoded
-10), position 48 and limit 50, `RainforestResin.trade` proposes
exactly one buy order at price 9998 with quantity
`min(10, 50 - 48) = 2`. -/
theorem trade_clip_scenario :
    RainforestResin.trade ⟨50, 0, "RAINFOREST_RESIN"⟩ c9state
      = some ([⟨"RAINFOREST_RESIN", 9998, 2⟩],
          "Buying 2 RAINFOREST_RESIN @ 9998\n") := by decide

/-- C10: for every tick and incoming debug buffer, `Trader.run`
returns conversions = 1 and the empty outgoing trader-state string,
independent of the contents of the tick: the trader-state persistence
mechanism is never used to carry data. -/
theorem trader_run_constant_outputs (logs : String) (state : TradingState) :
    ∃ out result, Trader.run logs state = some ⟨out, result, 1, "", ""⟩ :=
  ⟨_, _, run_eq logs state⟩

end Tutorial
